import Mathlib

/-!
# Verification of the BibTeX/DBLP entry-resolution workflow

Shallow embedding of `src/pages/dblp.py` (the BibTeX DBLP Resolver page).
Python strings are modelled as `List Char`; Python's ASCII character
classifiers and `str.lower` are modelled by explicit arithmetic on code
points.  Python dicts holding BibTeX records are modelled as ordered
association lists with Python's update semantics.  Functions that can raise
an uncaught exception return `Option` (`none` = exception / implicit `None`).
-/

/-- A Python string, modelled as its list of characters. -/
abbrev Str := List Char

/-- Model of Python's `str.isalnum` restricted to ASCII (the titles the tool
processes): letters `A`-`Z`, `a`-`z` and digits `0`-`9`. -/
def pyIsAlnum (c : Char) : Bool :=
  decide ((65 ≤ c.toNat ∧ c.toNat ≤ 90) ∨ (97 ≤ c.toNat ∧ c.toNat ≤ 122) ∨
    (48 ≤ c.toNat ∧ c.toNat ≤ 57))

/-- Model of Python's `str.isspace` on ASCII: space, tab, newline, carriage
return, vertical tab, form feed. -/
def pyIsSpace (c : Char) : Bool :=
  decide (c.toNat = 32 ∨ c.toNat = 9 ∨ c.toNat = 10 ∨ c.toNat = 13 ∨
    c.toNat = 11 ∨ c.toNat = 12)

/-- Model of Python's `str.lower` on one ASCII character. -/
def pyLower (c : Char) : Char :=
  if 65 ≤ c.toNat ∧ c.toNat ≤ 90 then Char.ofNat (c.toNat + 32) else c

theorem char_toNat_ofNat_of_valid {n : Nat} (h : n.isValidChar) :
    (Char.ofNat n).toNat = n := by
  rw [Char.ofNat, dif_pos h]
  rfl

theorem char_toNat_inj {a b : Char} (h : a.toNat = b.toNat) : a = b :=
  Char.ext (UInt32.ext h)

theorem toNat_pyLower (c : Char) :
    (pyLower c).toNat =
      if 65 ≤ c.toNat ∧ c.toNat ≤ 90 then c.toNat + 32 else c.toNat := by
  unfold pyLower
  split
  · next h =>
    exact char_toNat_ofNat_of_valid (Or.inl (by omega))
  · rfl

theorem pyIsAlnum_pyLower (c : Char) : pyIsAlnum (pyLower c) = pyIsAlnum c := by
  unfold pyIsAlnum
  rw [decide_eq_decide]
  rw [toNat_pyLower]
  split
  · next h => omega
  · exact Iff.rfl

theorem pyIsSpace_pyLower (c : Char) : pyIsSpace (pyLower c) = pyIsSpace c := by
  unfold pyIsSpace
  rw [decide_eq_decide]
  rw [toNat_pyLower]
  split
  · next h => omega
  · exact Iff.rfl

theorem pyLower_pyLower (c : Char) : pyLower (pyLower c) = pyLower c := by
  apply char_toNat_inj
  rw [toNat_pyLower, toNat_pyLower]
  by_cases h : 65 ≤ c.toNat ∧ c.toNat ≤ 90
  · simp only [if_pos h]
    rw [if_neg (by omega)]
  · simp only [if_neg h]

theorem pyLower_eq_iff (c : Char) (d : Char) (hd : ¬ (65 ≤ d.toNat ∧ d.toNat ≤ 122)) :
    (pyLower c = d) ↔ c = d := by
  constructor
  · intro h
    have hn := congrArg Char.toNat h
    rw [toNat_pyLower] at hn
    apply char_toNat_inj
    split at hn
    · omega
    · exact hn
  · intro h
    subst h
    unfold pyLower
    rw [if_neg (by omega)]

-- ---------------------------------------------------------------------------
-- clean_title (dblp.py lines 9-20)
-- ---------------------------------------------------------------------------

/-- `title.replace("{", "")`: Python `str.replace` with an empty replacement
deletes every occurrence of the one-character pattern. -/
def removeLeftBrace (l : Str) : Str := l.filter (fun c => !decide (c = '{'))

/-- `.replace("}", "")`. -/
def removeRightBrace (l : Str) : Str := l.filter (fun c => !decide (c = '}'))

/-- `.replace("--", " ")`: Python `str.replace` scans left to right and
replaces non-overlapping occurrences of `--` by one space. -/
def replaceDoubleHyphen : Str → Str
  | [] => []
  | [c] => [c]
  | c1 :: c2 :: rest =>
    if c1 = '-' ∧ c2 = '-' then ' ' :: replaceDoubleHyphen rest
    else c1 :: replaceDoubleHyphen (c2 :: rest)

/-- `.replace("-", " ")`. -/
def replaceSingleHyphen (l : Str) : Str :=
  l.map (fun c => if c = '-' then ' ' else c)

/-- `"".join(c for c in clean if c.isalnum() or c.isspace())`. -/
def keepAlnumSpace (l : Str) : Str :=
  l.filter (fun c => pyIsAlnum c || pyIsSpace c)

/-- `clean_title` from dblp.py: remove braces, turn double then single
hyphens into spaces, drop everything that is neither alphanumeric nor a
space, and lowercase the result. -/
def clean_title (title : Str) : Str :=
  (keepAlnumSpace
    (replaceSingleHyphen (replaceDoubleHyphen (removeRightBrace (removeLeftBrace title))))).map
    pyLower

-- sanity checks on concrete values
example : clean_title "Attention is {A}ll you Need".toList =
    "attention is all you need".toList := by decide
example : clean_title "A--B-C".toList = "a b c".toList := by decide
example : clean_title "a\x7bb".toList = "ab".toList := by decide

-- ---------------------------------------------------------------------------
-- Commutation of lowercasing with the other clean_title stages
-- ---------------------------------------------------------------------------

theorem pyLower_eq_lbrace (c : Char) : (pyLower c = '{') ↔ (c = '{') :=
  pyLower_eq_iff c '{' (by decide)

theorem pyLower_eq_rbrace (c : Char) : (pyLower c = '}') ↔ (c = '}') :=
  pyLower_eq_iff c '}' (by decide)

theorem pyLower_eq_hyphen (c : Char) : (pyLower c = '-') ↔ (c = '-') :=
  pyLower_eq_iff c '-' (by decide)

theorem removeLeftBrace_map_pyLower (l : Str) :
    removeLeftBrace (l.map pyLower) = (removeLeftBrace l).map pyLower := by
  unfold removeLeftBrace
  rw [List.filter_map]
  congr 1
  apply List.filter_congr
  intro c _
  simp only [Function.comp_apply]
  congr 1
  rw [decide_eq_decide]
  exact pyLower_eq_lbrace c

theorem removeRightBrace_map_pyLower (l : Str) :
    removeRightBrace (l.map pyLower) = (removeRightBrace l).map pyLower := by
  unfold removeRightBrace
  rw [List.filter_map]
  congr 1
  apply List.filter_congr
  intro c _
  simp only [Function.comp_apply]
  congr 1
  rw [decide_eq_decide]
  exact pyLower_eq_rbrace c

theorem replaceDoubleHyphen_map_pyLower (l : Str) :
    replaceDoubleHyphen (l.map pyLower) = (replaceDoubleHyphen l).map pyLower := by
  induction l using replaceDoubleHyphen.induct with
  | case1 => rfl
  | case2 c => rfl
  | case3 c1 c2 rest h ih =>
    simp only [List.map_cons, replaceDoubleHyphen]
    rw [if_pos ⟨(pyLower_eq_hyphen c1).2 h.1, (pyLower_eq_hyphen c2).2 h.2⟩,
      if_pos h, List.map_cons, ih]
    have : pyLower ' ' = ' ' := by decide
    rw [this]
  | case4 c1 c2 rest h ih =>
    simp only [List.map_cons, replaceDoubleHyphen]
    rw [if_neg (fun hc => h ⟨(pyLower_eq_hyphen c1).1 hc.1, (pyLower_eq_hyphen c2).1 hc.2⟩),
      if_neg h, List.map_cons]
    rw [← List.map_cons pyLower c2 rest, ih]

theorem replaceSingleHyphen_map_pyLower (l : Str) :
    replaceSingleHyphen (l.map pyLower) = (replaceSingleHyphen l).map pyLower := by
  unfold replaceSingleHyphen
  rw [List.map_map, List.map_map]
  apply List.map_congr_left
  intro c _
  simp only [Function.comp_apply]
  by_cases hc : c = '-'
  · subst hc
    rw [if_pos (by decide : pyLower '-' = '-'), if_pos rfl]
    decide
  · rw [if_neg (fun h => hc ((pyLower_eq_hyphen c).1 h)), if_neg hc]

theorem keepAlnumSpace_map_pyLower (l : Str) :
    keepAlnumSpace (l.map pyLower) = (keepAlnumSpace l).map pyLower := by
  unfold keepAlnumSpace
  rw [List.filter_map]
  congr 1
  apply List.filter_congr
  intro c _
  simp only [Function.comp_apply]
  rw [pyIsAlnum_pyLower, pyIsSpace_pyLower]

-- ---------------------------------------------------------------------------
-- C3: the Title Normalizer versus its specified description
-- ---------------------------------------------------------------------------

/-- The Title Normalizer exactly as claim C3 words it: the lowercase form of
the input in which brace characters, double hyphens, and single hyphens are
REPLACED BY SPACES, and every remaining character that is neither
alphanumeric nor a space is removed. -/
def clean_title_claimC3 (title : Str) : Str :=
  keepAlnumSpace
    (replaceSingleHyphen
      (replaceDoubleHyphen
        ((title.map (fun c => if c = '{' ∨ c = '}' then ' ' else c)).map pyLower)))

/-- The Title Normalizer as claim C3 words it, amended in the one point the
code forces: brace characters are REMOVED rather than replaced by spaces.
Lowercasing is applied to the input up front ("the lowercase form of the
input in which ..."), whereas the source lowercases last; the equivalence of
the two orders is part of what the amended theorem proves. -/
def clean_title_specC3 (title : Str) : Str :=
  keepAlnumSpace
    (replaceSingleHyphen
      (replaceDoubleHyphen (removeRightBrace (removeLeftBrace (title.map pyLower)))))

/-- C3 counterexample: the claim says braces are replaced by spaces, but the
code deletes them, so on the title a-lbrace-b the code yields "ab" while the
claimed description yields "a b". -/
theorem C3_counterexample :
    clean_title "a\x7bb".toList ≠ clean_title_claimC3 "a\x7bb".toList ∧
      clean_title "a\x7bb".toList = "ab".toList ∧
      clean_title_claimC3 "a\x7bb".toList = "a b".toList := by
  refine ⟨?_, by decide, by decide⟩
  decide

-- ---------------------------------------------------------------------------
-- Idempotence of the Title Normalizer over the ASCII model (towards C8)
-- ---------------------------------------------------------------------------

theorem keep_ne_special {c : Char} (h : (pyIsAlnum c || pyIsSpace c) = true) :
    c ≠ '{' ∧ c ≠ '}' ∧ c ≠ '-' := by
  refine ⟨?_, ?_, ?_⟩ <;> rintro rfl <;> exact absurd h (by decide)

theorem mem_clean_title {t : Str} {c : Char} (h : c ∈ clean_title t) :
    (pyIsAlnum c || pyIsSpace c) = true ∧ pyLower c = c := by
  unfold clean_title at h
  rcases List.mem_map.1 h with ⟨d, hd, rfl⟩
  rcases List.mem_filter.1 hd with ⟨_, hkeep⟩
  constructor
  · rw [pyIsAlnum_pyLower, pyIsSpace_pyLower]
    exact hkeep
  · exact pyLower_pyLower d

theorem removeLeftBrace_eq_self {l : Str} (h : ∀ c ∈ l, c ≠ '{') :
    removeLeftBrace l = l := by
  unfold removeLeftBrace
  apply List.filter_eq_self.2
  intro c hc
  simp only [Bool.not_eq_true', decide_eq_false_iff_not]
  exact h c hc

theorem removeRightBrace_eq_self {l : Str} (h : ∀ c ∈ l, c ≠ '}') :
    removeRightBrace l = l := by
  unfold removeRightBrace
  apply List.filter_eq_self.2
  intro c hc
  simp only [Bool.not_eq_true', decide_eq_false_iff_not]
  exact h c hc

theorem replaceDoubleHyphen_eq_self {l : Str} (h : ∀ c ∈ l, c ≠ '-') :
    replaceDoubleHyphen l = l := by
  induction l using replaceDoubleHyphen.induct with
  | case1 => rfl
  | case2 c => rfl
  | case3 c1 c2 rest hc _ =>
    exact absurd hc.1 (h c1 (by simp))
  | case4 c1 c2 rest hc ih =>
    unfold replaceDoubleHyphen
    rw [if_neg hc, ih]
    intro c hmem
    exact h c (List.mem_cons_of_mem c1 hmem)

theorem replaceSingleHyphen_eq_self {l : Str} (h : ∀ c ∈ l, c ≠ '-') :
    replaceSingleHyphen l = l := by
  unfold replaceSingleHyphen
  conv_rhs => rw [← List.map_id l]
  apply List.map_congr_left
  intro c hc
  rw [if_neg (h c hc)]
  rfl

theorem keepAlnumSpace_eq_self {l : Str}
    (h : ∀ c ∈ l, (pyIsAlnum c || pyIsSpace c) = true) :
    keepAlnumSpace l = l :=
  List.filter_eq_self.2 h

/-- Idempotence of the normalizer over the ASCII character model.  Real
Python lowercasing is Unicode-aware and breaks idempotence (see the C8
counterexample below); the faithful statement is therefore restricted to
ASCII inputs in the amended C8 theorem, which uses this lemma. -/
theorem clean_title_model_idempotent (s : Str) :
    clean_title (clean_title s) = clean_title s := by
  have hkeep : ∀ c ∈ clean_title s, (pyIsAlnum c || pyIsSpace c) = true :=
    fun c hc => (mem_clean_title hc).1
  have hlower : ∀ c ∈ clean_title s, pyLower c = c :=
    fun c hc => (mem_clean_title hc).2
  have hspecial := fun c hc => keep_ne_special (hkeep c hc)
  conv_lhs =>
    rw [clean_title,
      removeLeftBrace_eq_self (fun c hc => (hspecial c hc).1),
      removeRightBrace_eq_self (fun c hc => (hspecial c hc).2.1),
      replaceDoubleHyphen_eq_self (fun c hc => (hspecial c hc).2.2),
      replaceSingleHyphen_eq_self (fun c hc => (hspecial c hc).2.2),
      keepAlnumSpace_eq_self hkeep]
  conv_rhs => rw [← List.map_id (clean_title s)]
  apply List.map_congr_left
  intro c hc
  rw [hlower c hc]
  rfl

/-- C3 (amended): for every raw title string, the Title Normalizer returns
the lowercase form of the input in which brace characters are removed,
double hyphens and then single hyphens are replaced by spaces, and every
remaining character that is neither alphanumeric nor a space is removed. -/
theorem C3_clean_title_spec (title : Str) :
    clean_title title = clean_title_specC3 title := by
  unfold clean_title clean_title_specC3
  rw [removeLeftBrace_map_pyLower, removeRightBrace_map_pyLower,
    replaceDoubleHyphen_map_pyLower, replaceSingleHyphen_map_pyLower,
    keepAlnumSpace_map_pyLower]

-- ---------------------------------------------------------------------------
-- Similarity scoring (dblp.py lines 255-267)
-- ---------------------------------------------------------------------------

/-- Model of Python's `str.split()` with no argument: split on runs of
whitespace, discarding empty pieces.  `acc` holds the reversed current
word. -/
def pySplitAux : Str → Str → List Str
  | acc, [] => if acc = [] then [] else [acc.reverse]
  | acc, c :: rest =>
    if pyIsSpace c then
      if acc = [] then pySplitAux [] rest else acc.reverse :: pySplitAux [] rest
    else pySplitAux (c :: acc) rest

def pySplit (l : Str) : List Str := pySplitAux [] l

example : pySplit "  a bb  c ".toList = ["a".toList, "bb".toList, "c".toList] := by decide
example : pySplit "   ".toList = [] := by decide

/-- The word set `set(x.split())` of a cleaned title. -/
def wordSet (clean : Str) : Finset Str := (pySplit clean).toFinset

/-- The word-overlap similarity the processing loop computes:
`overlap = set(a.split()) & set(b.split())`,
`total_words = set(a.split()) | set(b.split())`,
`similarity = len(overlap) / len(total_words) if total_words else 0`.
The Python float ratio is modelled as an exact rational. -/
def similarity (original_clean result_clean : Str) : ℚ :=
  if wordSet original_clean ∪ wordSet result_clean = ∅ then 0
  else ((wordSet original_clean ∩ wordSet result_clean).card : ℚ) /
    ((wordSet original_clean ∪ wordSet result_clean).card : ℚ)

theorem similarity_eval {a b : Str} {m n : Nat}
    (hm : (wordSet a ∩ wordSet b).card = m) (hn : (wordSet a ∪ wordSet b).card = n)
    (hne : n ≠ 0) : similarity a b = (m : ℚ) / (n : ℚ)  := by
  rw [similarity, if_neg, hm, hn]
  intro hempty
  rw [hempty] at hn
  exact hne (by simpa using hn.symm)

/-- `if similarity > 0.8` (the float literal 0.8 is the rational 4/5): the
candidate joins `exact_matches`, the auto-acceptable pool. -/
def isExactMatch (original_clean result_clean : Str) : Bool :=
  decide (similarity original_clean result_clean > 4/5)

/-- Two-digit decimal words `00` .. `99`, used to build concrete titles with
exactly 81 overlapping words out of 100. -/
def numWord (i : Nat) : Str := [Char.ofNat (48 + i / 10 % 10), Char.ofNat (48 + i % 10)]

def joinWords : List Str → Str
  | [] => []
  | [w] => w
  | w :: ws => w ++ ' ' :: joinWords ws

/-- 91 distinct words 00..90. -/
def simTitleA : Str := joinWords ((List.range 91).map numWord)

/-- Words 00..80 plus 91..99: overlap with `simTitleA` is 81 words, the
union has 100 words, so the similarity is exactly 81/100 = 0.81. -/
def simTitleB : Str :=
  joinWords (((List.range 81).map numWord) ++ ((List.range 9).map (fun i => numWord (91 + i))))

set_option maxRecDepth 8000 in
/-- C4: a candidate is auto-acceptable exactly when its word-overlap
similarity is strictly greater than 0.8; a candidate at exactly 0.8 is not
auto-accepted, one at 0.81 is. -/
theorem C4_auto_accept_threshold :
    (∀ original_clean result_clean : Str,
        isExactMatch original_clean result_clean = true ↔
          similarity original_clean result_clean > 4/5) ∧
      similarity "a b c d e".toList "a b c d".toList = 4/5 ∧
      isExactMatch "a b c d e".toList "a b c d".toList = false ∧
      similarity simTitleA simTitleB = 81/100 ∧
      isExactMatch simTitleA simTitleB = true := by
  have hiff : ∀ original_clean result_clean : Str,
      isExactMatch original_clean result_clean = true ↔
        similarity original_clean result_clean > 4/5 := by
    intro a b
    rw [isExactMatch]
    exact decide_eq_true_iff
  have h08 : similarity "a b c d e".toList "a b c d".toList = 4/5 := by
    rw [similarity_eval (m := 4) (n := 5) (by decide) (by decide) (by decide)]
    norm_num
  have h081 : similarity simTitleA simTitleB = 81/100 := by
    rw [similarity_eval (m := 81) (n := 100) (by decide) (by decide) (by decide)]
    norm_num
  refine ⟨hiff, h08, ?_, h081, ?_⟩
  · rw [Bool.eq_false_iff]
    intro htrue
    have := (hiff _ _).1 htrue
    rw [h08] at this
    norm_num at this
  · rw [hiff, h081]
    norm_num

/-- C9 counterexample: a title consisting only of punctuation normalizes to
the empty word set, and the loop then scores it against itself as 0, not
1.0. -/
theorem C9_counterexample :
    similarity (clean_title "?!".toList) (clean_title "?!".toList) = 0 ∧
      similarity (clean_title "?!".toList) (clean_title "?!".toList) ≠ 1 := by
  constructor
  · decide
  · decide

/-- C9 (amended): for every title that still contains at least one word
after normalization, the similarity score of the title against itself (both
sides normalized) is 1.0. -/
theorem C9_similarity_self (t : Str) (h : pySplit (clean_title t) ≠ []) :
    similarity (clean_title t) (clean_title t) = 1 := by
  have hne : wordSet (clean_title t) ≠ ∅ := by
    intro hempty
    rw [wordSet] at hempty
    exact h ((List.toFinset_eq_empty_iff _).1 hempty)
  rw [similarity, Finset.inter_self, Finset.union_self, if_neg hne]
  apply div_self
  rw [Nat.cast_ne_zero]
  intro hcard
  exact hne (Finset.card_eq_zero.1 hcard)

/-- Witness for C9: the title "a" normalizes to a nonempty word list, and
its self-similarity is 1. -/
theorem C9_similarity_self_witness :
    pySplit (clean_title "a".toList) ≠ [] ∧
      similarity (clean_title "a".toList) (clean_title "a".toList) = 1 :=
  ⟨by decide, C9_similarity_self "a".toList (by decide)⟩

-- ---------------------------------------------------------------------------
-- BibTeX records as Python dicts (ordered association lists, unique keys)
-- ---------------------------------------------------------------------------

/-- A BibTeX record: a Python dict from field name to string value. -/
abbrev BibRecord := List (Str × Str)

/-- `d.get(k)` / guarded `d[k]`. -/
def dictGet (d : BibRecord) (k : Str) : Option Str :=
  (d.find? (fun p => p.1 == k)).map (fun p => p.2)

/-- `d[k] = v`: a Python dict update keeps the position of an existing key
and appends a fresh key at the end. -/
def dictSet (d : BibRecord) (k v : Str) : BibRecord :=
  if d.any (fun p => p.1 == k) then
    d.map (fun p => if p.1 == k then (p.1, v) else p)
  else d ++ [(k, v)]

theorem dictGet_cons (p : Str × Str) (d : BibRecord) (k : Str) :
    dictGet (p :: d) k = if p.1 == k then some p.2 else dictGet d k := by
  unfold dictGet
  rw [List.find?_cons]
  cases h : p.1 == k
  · simp [h]
  · simp [h]

theorem dictGet_mapSet_ne (d : BibRecord) (k v k' : Str) (h : k' ≠ k) :
    dictGet (d.map (fun p => if p.1 == k then (p.1, v) else p)) k' = dictGet d k' := by
  induction d with
  | nil => rfl
  | cons p rest ih =>
    rw [List.map_cons]
    by_cases hpk : (p.1 == k) = true
    · have hpk2 : p.1 = k := by simpa using hpk
      have hk2 : (p.1 == k') = false := by
        rw [beq_eq_false_iff_ne]
        intro he
        exact h (he.symm.trans hpk2)
      rw [if_pos hpk, dictGet_cons, dictGet_cons]
      simp only [hk2, Bool.false_eq_true, if_false]
      exact ih
    · rw [if_neg hpk, dictGet_cons, dictGet_cons]
      cases hc : p.1 == k'
      · simp only [Bool.false_eq_true, if_false]
        exact ih
      · simp

theorem dictGet_append_single_ne (d : BibRecord) (k v k' : Str) (h : k' ≠ k) :
    dictGet (d ++ [(k, v)]) k' = dictGet d k' := by
  induction d with
  | nil =>
    rw [List.nil_append, dictGet_cons]
    have hk2 : (k == k') = false := by
      rw [beq_eq_false_iff_ne]
      exact fun he => h he.symm
    simp only [hk2, Bool.false_eq_true, if_false]
  | cons p rest ih =>
    rw [List.cons_append, dictGet_cons, dictGet_cons, ih]

/-- Writing one key of a Python dict leaves every other key unchanged. -/
theorem dictGet_dictSet_ne (d : BibRecord) (k v k' : Str) (h : k' ≠ k) :
    dictGet (dictSet d k v) k' = dictGet d k' := by
  unfold dictSet
  split
  · exact dictGet_mapSet_ne d k v k' h
  · exact dictGet_append_single_ne d k v k' h

-- ---------------------------------------------------------------------------
-- get_author_str (dblp.py lines 86-118)
-- ---------------------------------------------------------------------------

def pyIsDigit (c : Char) : Bool := decide (48 ≤ c.toNat ∧ c.toNat ≤ 57)

/-- Python `str.isdigit`: non-empty and all digits. -/
def pyStrIsDigit (s : Str) : Bool := !s.isEmpty && s.all pyIsDigit

/-- One element of a DBLP author list: either a JSON object (whose display
name is its "text" member, `none` when absent) or any other value, carried
as its `str()` rendering. -/
inductive AuthorElem where
  | obj (text : Option Str)
  | other (s : Str)
deriving DecidableEq

/-- What `authors.get("author", [])` can hold: a string, a list of author
elements, or some other JSON type. -/
inductive AuthorListVal where
  | str (s : Str)
  | list (l : List AuthorElem)
  | otherVal
deriving DecidableEq

/-- The shapes of the DBLP `authors` field the decoder handles: JSON null, a
plain string, an object (its "author" member, if any, plus whether the
object has other members — needed only for Python truthiness), or a bare
list. -/
inductive AuthorsVal where
  | pyNone
  | str (s : Str)
  | dict (author : Option AuthorListVal) (hasOtherKeys : Bool)
  | list (l : List AuthorElem)
deriving DecidableEq

/-- Python truthiness of the `authors` value (`if not authors`). -/
def authorsTruthy : AuthorsVal → Bool
  | .pyNone => false
  | .str s => !s.isEmpty
  | .dict author hasOtherKeys => author.isSome || hasOtherKeys
  | .list l => !l.isEmpty

/-- The body of the `for author in author_list` loop.  A `none` result is
the uncaught `IndexError` raised by `parts[-1]` when the "text" value is
non-empty but consists only of whitespace (so that `split()` is empty). -/
def authorNameOf : AuthorElem → Option Str
  | .obj text =>
    let author_name := text.getD []
    if author_name = [] then some "N/A".toList
    else
      match (pySplit author_name).getLast? with
      | none => none
      | some last =>
        let name :=
          if pyStrIsDigit last then joinWords (pySplit author_name).dropLast
          else author_name
        some (if name = [] then "N/A".toList else name)
  | .other s => some s

/-- `"; ".join(...)`. -/
def joinSemicolon : List Str → Str
  | [] => []
  | [w] => w
  | w :: ws => w ++ ';' :: ' ' :: joinSemicolon ws

/-- The tail of `get_author_str` once `author_list` is determined. -/
def processAuthorList : AuthorListVal → Option Str
  | .str s => some s
  | .list l =>
    (l.mapM authorNameOf).map (fun author_names =>
      joinSemicolon (author_names.filter (fun n => n ≠ [])))
  | .otherVal => some "N/A".toList

/-- `get_author_str` from dblp.py.  `none` models an uncaught exception. -/
def get_author_str (authors : AuthorsVal) : Option Str :=
  if authorsTruthy authors = false then some "N/A".toList
  else
    match authors with
    | .str s => some s
    | .dict author _ => processAuthorList (author.getD (.list []))
    | .list l => processAuthorList (.list l)
    | .pyNone => some "N/A".toList

/-- C10: `get_author_str` is supposed to total-ly decode every authors
shape, but a list element whose "text" value is a non-empty whitespace-only
string makes `parts[-1]` raise IndexError (Python `"   ".split()` is empty).
The other shapes do return strings, e.g. the numeric disambiguation suffix
is stripped and two entries join with "; ". -/
theorem C10_get_author_str_crash :
    get_author_str (.list [.obj (some "   ".toList)]) = none ∧
      get_author_str (.list [.obj (some "John Smith 0016".toList),
        .obj (some "Jane Doe".toList)]) = some "John Smith; Jane Doe".toList ∧
      get_author_str .pyNone = some "N/A".toList ∧
      get_author_str (.str "Alice; Bob".toList) = some "Alice; Bob".toList ∧
      get_author_str (.dict (some (.list [.other "42".toList])) false) =
        some "42".toList := by
  refine ⟨by decide, by decide, by decide, by decide, by decide⟩

-- ---------------------------------------------------------------------------
-- merge_entries (dblp.py lines 149-171)
-- ---------------------------------------------------------------------------

/-- A DBLP search hit's "info" object, with the fields merge and display
use.  Constructor argument order: title, year, doi, url, venue, pubtype
(the JSON "type" member), authors. -/
structure DblpEntry where
  title : Option Str
  year : Option Str
  doi : Option Str
  url : Option Str
  venue : Option Str
  pubtype : Option Str
  authors : Option AuthorsVal
deriving DecidableEq

/-- The `field_mapping` dict of `merge_entries`: DBLP field accessor paired
with the BibTeX field name it is written to. -/
def field_mapping : List ((DblpEntry → Option Str) × Str) :=
  [(DblpEntry.title, "title".toList), (DblpEntry.year, "year".toList),
   (DblpEntry.doi, "doi".toList), (DblpEntry.url, "url".toList),
   (DblpEntry.venue, "journal".toList), (DblpEntry.pubtype, "note".toList)]

/-- The `for dblp_field, bibtex_field in field_mapping.items()` loop of
`merge_entries`: overlay each mapped DBLP field that is present (`some`)
and truthy (non-empty) onto the copy of the BibTeX entry. -/
def overlayFields (bibtex_entry : BibRecord) (dblp_entry : DblpEntry) : BibRecord :=
  field_mapping.foldl (fun merged fm =>
    match fm.1 dblp_entry with
    | some v => if v = [] then merged else dictSet merged fm.2 v
    | none => merged) bibtex_entry

/-- `merge_entries` from dblp.py: copy the BibTeX entry, overlay the mapped
fields, then overwrite "author" with the decoded author string whenever the
DBLP entry has an `authors` member.  `none` models the exception
`get_author_str` can raise.  No network request happens here: the function
never fetches the canonical record behind the candidate's URL. -/
def merge_entries (bibtex_entry : BibRecord) (dblp_entry : DblpEntry) : Option BibRecord :=
  match dblp_entry.authors with
  | some av => (get_author_str av).map (fun s =>
      dictSet (overlayFields bibtex_entry dblp_entry) "author".toList s)
  | none => some (overlayFields bibtex_entry dblp_entry)

theorem merge_entries_eq_none_authors (bib : BibRecord) (d : DblpEntry)
    (h : d.authors = none) : merge_entries bib d = some (overlayFields bib d) := by
  unfold merge_entries
  rw [h]

theorem merge_entries_eq_some_authors (bib : BibRecord) (d : DblpEntry)
    (av : AuthorsVal) (h : d.authors = some av) :
    merge_entries bib d = (get_author_str av).map (fun s =>
      dictSet (overlayFields bib d) "author".toList s) := by
  unfold merge_entries
  rw [h]

/-- The seven BibTeX fields `merge_entries` may write. -/
def overlayTargets : List Str :=
  ["title".toList, "year".toList, "doi".toList, "url".toList,
   "journal".toList, "note".toList, "author".toList]

theorem dictGet_overlayFold_ne (d : DblpEntry) (k : Str)
    (fms : List ((DblpEntry → Option Str) × Str)) (init : BibRecord)
    (hk : ∀ fm ∈ fms, k ≠ fm.2) :
    dictGet (fms.foldl (fun merged fm =>
      match fm.1 d with
      | some v => if v = [] then merged else dictSet merged fm.2 v
      | none => merged) init) k = dictGet init k := by
  induction fms generalizing init with
  | nil => rfl
  | cons fm rest ih =>
    rw [List.foldl_cons]
    rw [ih _ (fun f hf => hk f (List.mem_cons_of_mem fm hf))]
    cases hv : fm.1 d with
    | none => rfl
    | some v =>
      show dictGet (if v = [] then init else dictSet init fm.2 v) k = dictGet init k
      by_cases he : v = []
      · rw [if_pos he]
      · rw [if_neg he]
        exact dictGet_dictSet_ne init fm.2 v k (hk fm (List.mem_cons_self fm rest))

theorem dictGet_overlayFields_ne (bib : BibRecord) (d : DblpEntry) (k : Str)
    (hk : ∀ fm ∈ field_mapping, k ≠ fm.2) :
    dictGet (overlayFields bib d) k = dictGet bib k :=
  dictGet_overlayFold_ne d k field_mapping bib hk

-- concrete records used in the merge claims
def exLocalC7 : BibRecord :=
  [("title".toList, "Old".toList), ("year".toList, "2020".toList)]

def exCandC7 : DblpEntry :=
  ⟨some "New".toList, none, some "10.1/x".toList, none, none, none, none⟩

/-- C7: `merge_entries` builds a new record; in the field-overlay path every
local field outside the seven overlay targets keeps its value, and the
spec's concrete overlay example holds: local {title: Old, year: 2020} merged
with candidate {title: New, doi: 10.1/x} gives
{title: New, year: 2020, doi: 10.1/x}. -/
theorem C7_merge_entries_frame :
    (∀ (bib : BibRecord) (d : DblpEntry) (m : BibRecord) (k : Str),
        merge_entries bib d = some m → k ∉ overlayTargets →
          dictGet m k = dictGet bib k) ∧
      merge_entries exLocalC7 exCandC7 =
        some [("title".toList, "New".toList), ("year".toList, "2020".toList),
          ("doi".toList, "10.1/x".toList)] := by
  constructor
  · intro bib d m k hm hk
    simp only [overlayTargets, List.mem_cons, List.not_mem_nil, or_false, not_or] at hk
    obtain ⟨h1, h2, h3, h4, h5, h6, h7⟩ := hk
    have hne : ∀ fm ∈ field_mapping, k ≠ fm.2 := by
      intro fm hfm
      simp only [field_mapping, List.mem_cons, List.not_mem_nil, or_false] at hfm
      rcases hfm with rfl | rfl | rfl | rfl | rfl | rfl
      exacts [h1, h2, h3, h4, h5, h6]
    cases ha : d.authors with
    | none =>
      rw [merge_entries_eq_none_authors bib d ha] at hm
      obtain rfl := Option.some.inj hm
      exact dictGet_overlayFields_ne bib d k hne
    | some av =>
      rw [merge_entries_eq_some_authors bib d av ha] at hm
      cases hs : get_author_str av with
      | none =>
        rw [hs] at hm
        exact absurd hm (by simp)
      | some s =>
        rw [hs] at hm
        simp only [Option.map_some'] at hm
        obtain rfl := Option.some.inj hm
        rw [dictGet_dictSet_ne _ _ _ _ h7]
        exact dictGet_overlayFields_ne bib d k hne
  · decide

-- ---------------------------------------------------------------------------
-- C2: the claimed canonical-fetch merge path
-- ---------------------------------------------------------------------------

def exLocalC2 : BibRecord :=
  [("ID".toList, "someKey2020".toList), ("title".toList, "Old Title".toList),
   ("pages".toList, "1--10".toList)]

/-- A candidate that carries a canonical-record retrieval URL. -/
def exCandC2 : DblpEntry :=
  ⟨some "New Title".toList, none, none, some "https://dblp.org/rec/conf/x/y2020".toList,
   none, none, none⟩

/-- Modelled from the spec: the primary path of the Record Merger (spec
section 4.4), which is absent from `merge_entries` in the source.  Given the
records parsed from the canonical bibliographic text fetched from the
candidate's URL, the spec says to use the first parsed record wholesale,
overwriting only its identity field with the original local citation key. -/
def mergeCanonicalSpec (bibtex_entry : BibRecord) (parsed : List BibRecord) :
    Option BibRecord :=
  match parsed with
  | p :: _ => some (dictSet p "ID".toList ((dictGet bibtex_entry "ID".toList).getD []))
  | [] => none

/-- A canonical record as it would parse from a successful fetch. -/
def exParsedC2 : BibRecord :=
  [("ENTRYTYPE".toList, "inproceedings".toList),
   ("ID".toList, "DBLP:conf/x/y2020".toList),
   ("title".toList, "Canonical Title".toList)]

/-- C2 counterexample: the candidate carries a canonical URL and the fetch
would parse into a record, yet the merged result is not that parsed record
with the identity overwritten; moreover the local "pages" field — not the
identity — survives into the merge, so the citation key is not the only
field preserved from the original. -/
theorem C2_counterexample :
    exCandC2.url.isSome = true ∧
      merge_entries exLocalC2 exCandC2 ≠ mergeCanonicalSpec exLocalC2 [exParsedC2] ∧
      (merge_entries exLocalC2 exCandC2).map (fun m => dictGet m "pages".toList) =
        some (some "1--10".toList) := by
  refine ⟨by decide, by decide, by decide⟩

/-- The field-overlay merge as the spec's fallback path words it: copy the
local record; overlay title, year, DOI and URL as-is, venue onto "journal"
and publication type onto "note", each only when present and non-empty;
finally overwrite "author" with the normalized author string whenever the
candidate has an authors field.  Written as an explicit chain of
conditional updates rather than the source's fold over a field mapping. -/
def mergeOverlaySpec (bib : BibRecord) (d : DblpEntry) : Option BibRecord :=
  let upd := fun (m : BibRecord) (f : Option Str) (key : Str) =>
    match f with
    | some v => if v = [] then m else dictSet m key v
    | none => m
  let m := upd (upd (upd (upd (upd (upd bib d.title "title".toList) d.year "year".toList)
    d.doi "doi".toList) d.url "url".toList) d.venue "journal".toList) d.pubtype "note".toList
  match d.authors with
  | some av => (get_author_str av).map (fun s => dictSet m "author".toList s)
  | none => some m

/-- C2 (amended): the Record Merger performs no canonical fetch at all; for
every local record and candidate — also when the candidate carries a
canonical URL — the result is exactly the field-overlay merge, in which the
candidate's URL is merely copied into the "url" field. -/
theorem C2_merge_is_overlay_only (bib : BibRecord) (d : DblpEntry) :
    merge_entries bib d = mergeOverlaySpec bib d := rfl

/-- Witness for C7: applying the frame theorem at a concrete merge shows
the non-overlaid local field "pages" is preserved. -/
theorem C7_merge_entries_frame_witness :
    merge_entries exLocalC2 exCandC7 =
        some [("ID".toList, "someKey2020".toList), ("title".toList, "New".toList),
          ("pages".toList, "1--10".toList), ("doi".toList, "10.1/x".toList)] ∧
      dictGet [("ID".toList, "someKey2020".toList), ("title".toList, "New".toList),
          ("pages".toList, "1--10".toList), ("doi".toList, "10.1/x".toList)]
          "pages".toList =
        dictGet exLocalC2 "pages".toList :=
  ⟨by decide,
    C7_merge_entries_frame.1 exLocalC2 exCandC7 _ "pages".toList (by decide) (by decide)⟩

-- ---------------------------------------------------------------------------
-- The module-level processing loop (dblp.py lines 231-338)
-- ---------------------------------------------------------------------------

def strStartsWith : Str → Str → Bool
  | [], _ => true
  | _ :: _, [] => false
  | p :: ps, c :: cs => p == c && strStartsWith ps cs

/-- Python's `pat in s` substring test. -/
def strContains (pat : Str) : Str → Bool
  | [] => strStartsWith pat []
  | c :: cs => strStartsWith pat (c :: cs) || strContains pat cs

/-- The sort key `lambda x: "CoRR" in x.get("venue", "") or "arXiv" in
x.get("venue", "")`: `true` marks a preprint venue. -/
def isPreprintVenue (x : DblpEntry) : Bool :=
  strContains "CoRR".toList (x.venue.getD []) ||
    strContains "arXiv".toList (x.venue.getD [])

/-- Insert into a Bool-key-sorted list, after all entries of equal key. -/
def insertByKey {α : Type} (key : α → Bool) (x : α) : List α → List α
  | [] => [x]
  | y :: ys =>
    if key x = false ∨ key y = true then x :: y :: ys else y :: insertByKey key x ys

/-- Python `list.sort(key=...)` for a Bool-valued key: `list.sort` is
stable and False sorts before True; a stable insertion sort realizes
exactly that. -/
def sortByKey {α : Type} (key : α → Bool) : List α → List α
  | [] => []
  | x :: xs => insertByKey key x (sortByKey key xs)

/-- `exact_matches.sort(key=lambda x: "CoRR" in ... or "arXiv" in ...)`. -/
def pySortByPreprint (l : List DblpEntry) : List DblpEntry :=
  sortByKey isPreprintVenue l

theorem insertByKey_false {α : Type} (key : α → Bool) (x : α) (h : key x = false)
    (l : List α) : insertByKey key x l = x :: l := by
  cases l with
  | nil => rfl
  | cons y ys => rw [insertByKey, if_pos (Or.inl h)]

theorem insertByKey_true_append {α : Type} (key : α → Bool) (x : α)
    (h : key x = true) (A B : List α) (hA : ∀ a ∈ A, key a = false)
    (hB : ∀ b ∈ B, key b = true) :
    insertByKey key x (A ++ B) = A ++ x :: B := by
  induction A with
  | nil =>
    rw [List.nil_append, List.nil_append]
    cases B with
    | nil => rfl
    | cons b bs =>
      rw [insertByKey, if_pos (Or.inr (hB b (List.mem_cons_self b bs)))]
  | cons a as ih =>
    rw [List.cons_append, List.cons_append, insertByKey, if_neg]
    · rw [ih (fun a' ha' => hA a' (List.mem_cons_of_mem a ha'))]
    · rintro (h' | h')
      · rw [h] at h'
        exact absurd h' (by decide)
      · rw [hA a (List.mem_cons_self a as)] at h'
        exact absurd h' (by decide)

/-- A stable sort on a Bool key is an order-preserving partition: all
False-key entries first, then all True-key entries, each group in its
original relative order. -/
theorem sortByKey_partition {α : Type} (key : α → Bool) (l : List α) :
    sortByKey key l = l.filter (fun x => !key x) ++ l.filter key := by
  induction l with
  | nil => rfl
  | cons x xs ih =>
    rw [sortByKey, ih, List.filter_cons, List.filter_cons]
    cases hx : key x with
    | false =>
      rw [insertByKey_false key x hx]
      simp only [hx, Bool.not_false, if_true, Bool.false_eq_true, if_false,
        List.cons_append]
    | true =>
      rw [insertByKey_true_append key x hx _ _
        (fun a ha => by simpa using (List.of_mem_filter ha))
        (fun b hb => List.of_mem_filter hb)]
      simp only [hx, Bool.not_true, Bool.false_eq_true, if_false, if_true]

/-- `add_todo_note` from dblp.py. -/
def add_todo_note (entry : BibRecord) : BibRecord :=
  let note := "TODO: Search for this entry manually in DBLP".toList
  match dictGet entry "note".toList with
  | some old => dictSet entry "note".toList (old ++ ". ".toList ++ note)
  | none => dictSet entry "note".toList note

/-- The user interaction available on a conflicted entry: press button
`i + 1` (0-based `choose i`), or decline. -/
inductive Decision where
  | choose (i : Nat)
  | decline
deriving DecidableEq

/-- One pass of the processing loop over the current entry, with the DBLP
search results and (for the conflict branch) the user's decision.  `none`
models an uncaught exception: a missing "title" key in the entry or in a
hit, or the `get_author_str` crash inside `merge_entries`. -/
def processEntry (entry : BibRecord) (dblp_results : List DblpEntry) (dec : Decision) :
    Option BibRecord :=
  match dictGet entry "title".toList with
  | none => none
  | some title =>
    if dblp_results = [] then some (add_todo_note entry)
    else
      match dblp_results.mapM DblpEntry.title with
      | none => none
      | some _ =>
        let original_clean := clean_title title
        let exact_matches := dblp_results.filter (fun result =>
          isExactMatch original_clean (clean_title (result.title.getD [])))
        match pySortByPreprint exact_matches with
        | top :: _ => merge_entries entry top
        | [] =>
          match dec with
          | .choose i =>
            if i < min dblp_results.length 5 then
              match dblp_results[i]? with
              | some r => merge_entries entry r
              | none => none
            else none
          | .decline => some entry

-- ---------------------------------------------------------------------------
-- A division-free form of the threshold test, for concrete evaluation
-- ---------------------------------------------------------------------------

theorem similarity_gt_iff (a b : Str) :
    similarity a b > 4/5 ↔
      5 * (wordSet a ∩ wordSet b).card > 4 * (wordSet a ∪ wordSet b).card := by
  rw [similarity]
  by_cases h : wordSet a ∪ wordSet b = ∅
  · rw [if_pos h]
    constructor
    · intro h5
      exact absurd h5 (by norm_num)
    · intro h5
      exfalso
      have hc : (wordSet a ∪ wordSet b).card = 0 := by
        rw [h]
        exact Finset.card_empty
      have hsub : (wordSet a ∩ wordSet b).card ≤ (wordSet a ∪ wordSet b).card :=
        Finset.card_le_card (Finset.inter_subset_union)
      omega
  · rw [if_neg h]
    have hcpos : 0 < (wordSet a ∪ wordSet b).card :=
      Finset.card_pos.2 (Finset.nonempty_iff_ne_empty.2 h)
    rw [gt_iff_lt, div_lt_div_iff (by norm_num) (by exact_mod_cast hcpos)]
    constructor
    · intro hq
      have hq2 : ((4 * (wordSet a ∪ wordSet b).card : Nat) : ℚ) <
          ((5 * (wordSet a ∩ wordSet b).card : Nat) : ℚ) := by
        push_cast
        linarith
      exact_mod_cast hq2
    · intro hn
      have hq2 : ((4 * (wordSet a ∪ wordSet b).card : Nat) : ℚ) <
          ((5 * (wordSet a ∩ wordSet b).card : Nat) : ℚ) := by
        exact_mod_cast hn
      push_cast at hq2
      linarith

/-- `similarity a b > 0.8` with the division cleared: kernel-evaluable. -/
def isExactMatchB (a b : Str) : Bool :=
  decide (5 * (wordSet a ∩ wordSet b).card > 4 * (wordSet a ∪ wordSet b).card)

theorem isExactMatch_eq_isExactMatchB : @isExactMatch = @isExactMatchB := by
  funext a b
  rw [isExactMatch, isExactMatchB, decide_eq_decide]
  exact similarity_gt_iff a b

/-- `processEntry` with the division-free threshold test; equal to
`processEntry` by `processEntry_eq_processEntryB`, used to evaluate the
loop on concrete inputs. -/
def processEntryB (entry : BibRecord) (dblp_results : List DblpEntry) (dec : Decision) :
    Option BibRecord :=
  match dictGet entry "title".toList with
  | none => none
  | some title =>
    if dblp_results = [] then some (add_todo_note entry)
    else
      match dblp_results.mapM DblpEntry.title with
      | none => none
      | some _ =>
        let original_clean := clean_title title
        let exact_matches := dblp_results.filter (fun result =>
          isExactMatchB original_clean (clean_title (result.title.getD [])))
        match pySortByPreprint exact_matches with
        | top :: _ => merge_entries entry top
        | [] =>
          match dec with
          | .choose i =>
            if i < min dblp_results.length 5 then
              match dblp_results[i]? with
              | some r => merge_entries entry r
              | none => none
            else none
          | .decline => some entry

theorem processEntry_eq_processEntryB : @processEntry = @processEntryB := by
  unfold processEntry processEntryB
  rw [isExactMatch_eq_isExactMatchB]

-- concrete inputs for the ordering tie-break
def exEntryC5 : BibRecord :=
  [("ID".toList, "e1".toList), ("title".toList, "a b c d e".toList)]

def exCandArxiv : DblpEntry :=
  ⟨some "a b c d e".toList, none, none, none, some "arXiv".toList, none, none⟩

def exCandACM : DblpEntry :=
  ⟨some "a b c d e".toList, none, none, none, some "ACM Conference X".toList, none, none⟩

/-- C5: the sort by the preprint key is an order-preserving partition that
moves every candidate whose venue contains neither "CoRR" nor "arXiv" to
the front, and the entry is merged with the first candidate afterwards; on
two above-threshold candidates with venues "arXiv" (listed first) and
"ACM Conference X", the non-arXiv candidate is the one merged. -/
theorem C5_preprint_preference :
    (∀ l : List DblpEntry, pySortByPreprint l =
        l.filter (fun x => !isPreprintVenue x) ++ l.filter (fun x => isPreprintVenue x)) ∧
      isPreprintVenue exCandArxiv = true ∧
      isPreprintVenue exCandACM = false ∧
      processEntry exEntryC5 [exCandArxiv, exCandACM] Decision.decline =
        some [("ID".toList, "e1".toList), ("title".toList, "a b c d e".toList),
          ("journal".toList, "ACM Conference X".toList)] := by
  refine ⟨fun l => sortByKey_partition isPreprintVenue l, by decide, by decide, ?_⟩
  rw [processEntry_eq_processEntryB]
  decide

-- ---------------------------------------------------------------------------
-- search_dblp (dblp.py lines 23-83)
-- ---------------------------------------------------------------------------

/-- The observable outcome of one `requests.get` attempt against the DBLP
search endpoint. -/
inductive DblpAttempt where
  | rateLimited (retryAfter : Nat)
  | requestError
  | success (hits : List DblpEntry)

/-- The `while retry_count < max_retries` loop of `search_dblp`, driven by
the network oracle `net` (attempt number ↦ outcome; the attempt number
always equals `retry_count` because every non-returning path increments
it).  `fuel` is kept equal to `max_retries - retry_count`, so `fuel = 0` is
exactly the exit of the while loop — where the Python function falls off
the end and implicitly returns `None` (modelled `none`).  A 429 consumes a
retry and loops; a request exception retries while
`retry_count < max_retries - 1` and otherwise returns the empty list; a
successful response returns its hits. -/
def search_dblp_loop (net : Nat → DblpAttempt) (max_retries : Nat) :
    Nat → Nat → Option (List DblpEntry)
  | _, 0 => none
  | retry_count, fuel + 1 =>
    match net retry_count with
    | .rateLimited _ => search_dblp_loop net max_retries (retry_count + 1) fuel
    | .success hits => some hits
    | .requestError =>
      if retry_count < max_retries - 1 then
        search_dblp_loop net max_retries (retry_count + 1) fuel
      else some []

/-- `search_dblp` from dblp.py.  The title is normalized into the query;
the network behaviour is abstracted by `net`.  `num_results` only shapes
the request parameters. -/
def search_dblp (title : Str) (net : Nat → DblpAttempt)
    (num_results : Nat := 5) (max_retries : Nat := 5) : Option (List DblpEntry) :=
  search_dblp_loop net max_retries 0 max_retries

/-- C1: with the default retry limit 5, when every attempt is a transient
request exception the loop does return the empty list after exhausting its
retries — but when every attempt is a rate-limit response the loop exits
with `retry_count = max_retries` and the function implicitly returns
Python `None`, not a sequence at all, contradicting its declared
`List[Dict]` return type and its docstring. -/
theorem C1_search_dblp_all_rate_limited_returns_none :
    search_dblp "sample".toList (fun _ => DblpAttempt.rateLimited 30) 5 5 = none ∧
      search_dblp "sample".toList (fun _ => DblpAttempt.requestError) 5 5 = some [] ∧
      (∀ k : Nat, search_dblp "sample".toList
        (fun _ => DblpAttempt.rateLimited 30) 5 5 ≠ some []) := by
  refine ⟨rfl, rfl, fun _ => by decide⟩

-- ---------------------------------------------------------------------------
-- The session state machine of the page (C6)
-- ---------------------------------------------------------------------------

/-- The `st.session_state` fields the processing loop uses. -/
structure SessionState where
  current_entry : Nat
  processed_entries : List BibRecord
  processing_done : Bool
deriving DecidableEq

/-- Session state right after upload (lines 222-225). -/
def initState : SessionState := ⟨0, [], false⟩

/-- One top-to-bottom re-execution of the page script after upload (lines
231-338).  If processing is done nothing changes.  Otherwise the entry at
the cursor is processed; the conflict branch's eventual button callback is
folded into the same step through the decision oracle, since exactly one of
`handle_accept` / `handle_decline` runs for the entry either way.  Each
processed entry appends exactly one record and advances the cursor by one;
when the cursor passes the last entry, `processing_done` is set (lines
334-338).  `none` models an uncaught exception aborting the script run. -/
def scriptRun (entries : List BibRecord) (search : Nat → List DblpEntry)
    (dec : Nat → Decision) (s : SessionState) : Option SessionState :=
  if s.processing_done then some s
  else if h : s.current_entry < entries.length then
    (processEntry (entries.get ⟨s.current_entry, h⟩) (search s.current_entry)
        (dec s.current_entry)).map (fun r =>
      if s.current_entry + 1 < entries.length then
        ⟨s.current_entry + 1, s.processed_entries ++ [r], false⟩
      else ⟨s.current_entry + 1, s.processed_entries ++ [r], true⟩)
  else some s

/-- Run `n` script re-executions. -/
def runScript (entries : List BibRecord) (search : Nat → List DblpEntry)
    (dec : Nat → Decision) : Nat → SessionState → Option SessionState
  | 0, s => some s
  | n + 1, s =>
    match scriptRun entries search dec s with
    | none => none
    | some s' => runScript entries search dec n s'

/-- The invariant the session state maintains: one finalized record per
consumed entry, in input order, the cursor never passes the end, and the
done flag means the cursor is at the end. -/
def stateInv (entries : List BibRecord) (search : Nat → List DblpEntry)
    (dec : Nat → Decision) (s : SessionState) : Prop :=
  s.processed_entries.length = s.current_entry ∧
    s.current_entry ≤ entries.length ∧
    (s.processing_done = true → s.current_entry = entries.length) ∧
    ∀ i (hi : i < entries.length) (hp : i < s.processed_entries.length),
      processEntry (entries.get ⟨i, hi⟩) (search i) (dec i) =
        some (s.processed_entries.get ⟨i, hp⟩)

theorem scriptRun_inv {entries search dec} {s s' : SessionState}
    (hinv : stateInv entries search dec s)
    (hrun : scriptRun entries search dec s = some s') :
    stateInv entries search dec s' := by
  obtain ⟨hlen, hle, hdone, hget⟩ := hinv
  unfold scriptRun at hrun
  by_cases hd : s.processing_done = true
  · rw [if_pos hd] at hrun
    exact (Option.some.inj hrun) ▸ ⟨hlen, hle, hdone, hget⟩
  · rw [if_neg hd] at hrun
    by_cases hc : s.current_entry < entries.length
    · rw [dif_pos hc] at hrun
      cases hp : processEntry (entries.get ⟨s.current_entry, hc⟩)
          (search s.current_entry) (dec s.current_entry) with
      | none => rw [hp] at hrun; exact absurd hrun (by simp)
      | some r =>
        rw [hp, Option.map_some'] at hrun
        have hnewget : ∀ i (hi : i < entries.length)
            (hp2 : i < (s.processed_entries ++ [r]).length),
            processEntry (entries.get ⟨i, hi⟩) (search i) (dec i) =
              some ((s.processed_entries ++ [r]).get ⟨i, hp2⟩) := by
          intro i hi hp2
          rw [List.length_append, List.length_singleton] at hp2
          by_cases hilt : i < s.processed_entries.length
          · rw [List.get_append_left _ _ hilt]
            exact hget i hi hilt
          · have hieq : i = s.processed_entries.length := by omega
            subst hieq
            have hr : (s.processed_entries ++ [r]).get
                ⟨s.processed_entries.length, by simp⟩ = r := by
              simp
            rw [hr]
            simp only [hlen]
            exact hp
        by_cases hnext : s.current_entry + 1 < entries.length
        · rw [if_pos hnext] at hrun
          obtain rfl := Option.some.inj hrun
          refine ⟨by simp [hlen], by show s.current_entry + 1 ≤ entries.length; omega,
            by intro hfalse; exact absurd hfalse (by simp), ?_⟩
          exact hnewget
        · rw [if_neg hnext] at hrun
          obtain rfl := Option.some.inj hrun
          refine ⟨by simp [hlen], by show s.current_entry + 1 ≤ entries.length; omega,
            fun _ => by show s.current_entry + 1 = entries.length; omega, ?_⟩
          exact hnewget
    · rw [dif_neg hc] at hrun
      exact (Option.some.inj hrun) ▸ ⟨hlen, hle, hdone, hget⟩

theorem runScript_inv {entries search dec} {n : Nat} {s s' : SessionState}
    (hinv : stateInv entries search dec s)
    (hrun : runScript entries search dec n s = some s') :
    stateInv entries search dec s' := by
  induction n generalizing s with
  | zero =>
    exact (Option.some.inj hrun) ▸ hinv
  | succ n ih =>
    unfold runScript at hrun
    cases hstep : scriptRun entries search dec s with
    | none => rw [hstep] at hrun; exact absurd hrun (by simp)
    | some s1 =>
      rw [hstep] at hrun
      exact ih (scriptRun_inv hinv hstep) hrun

/-- C6: whenever the workflow reaches the done state, the finalized
sequence holds exactly one record per input entry: its length equals the
input length, and the record at position i is precisely the finalized
outcome (merged, chosen, declined-original or annotated) of input entry i —
no entry duplicated, none lost. -/
theorem C6_finalized_length (entries : List BibRecord)
    (search : Nat → List DblpEntry) (dec : Nat → Decision) (n : Nat)
    (s' : SessionState)
    (hrun : runScript entries search dec n initState = some s')
    (hdone : s'.processing_done = true) :
    s'.processed_entries.length = entries.length ∧
      ∀ i (hi : i < entries.length) (hp : i < s'.processed_entries.length),
        processEntry (entries.get ⟨i, hi⟩) (search i) (dec i) =
          some (s'.processed_entries.get ⟨i, hp⟩) := by
  have hinit : stateInv entries search dec initState := by
    refine ⟨rfl, by simp [initState], by intro h; exact absurd h (by simp [initState]), ?_⟩
    intro i hi hp
    exact absurd hp (by simp [initState])
  obtain ⟨hlen, _, hdone2, hget⟩ := runScript_inv hinit hrun
  exact ⟨by rw [hlen, hdone2 hdone], hget⟩

def exBatchC6 : List BibRecord := [[("title".toList, "T".toList)]]

def exFinalC6 : SessionState :=
  ⟨1, [[("title".toList, "T".toList),
    ("note".toList, "TODO: Search for this entry manually in DBLP".toList)]], true⟩

/-- Witness for C6: a one-entry batch with no search hits finishes in one
script run with the done flag set and exactly one finalized (annotated)
record. -/
theorem C6_finalized_length_witness :
    runScript exBatchC6 (fun _ => []) (fun _ => Decision.decline) 1 initState =
        some exFinalC6 ∧
      exFinalC6.processing_done = true ∧
      exFinalC6.processed_entries.length = exBatchC6.length :=
  ⟨by decide, by decide,
    (C6_finalized_length exBatchC6 (fun _ => []) (fun _ => Decision.decline) 1 exFinalC6
      (by decide) (by decide)).1⟩

/-- C7 counterexample: for a candidate whose authors list contains a
whitespace-only "text" value, `merge_entries` raises (via
`get_author_str`) and produces no record at all, so the merger does not
produce a new record for every local record and candidate. -/
theorem C7_counterexample :
    merge_entries exLocalC7
      ⟨none, none, none, none, none, none,
        some (AuthorsVal.list [AuthorElem.obj (some "   ".toList)])⟩ = none := by
  decide

-- ---------------------------------------------------------------------------
-- C8: the Unicode behaviour of Python's str.lower refutes idempotence
-- ---------------------------------------------------------------------------

/-- Python's `str.lower` on one character, faithful beyond ASCII on the
characters this development uses: ASCII capitals map to their lowercase;
LATIN CAPITAL LETTER I WITH DOT ABOVE (U+0130) maps, as in CPython, to the
two-character string "i" followed by COMBINING DOT ABOVE (U+0307).  Unicode
lowercasing is string-valued (it can expand), hence the `Str` result; the
remaining Unicode case mappings, none of which this file evaluates, are not
tabulated and fall to the identity. -/
def pyLowerU (c : Char) : Str :=
  if c = 'İ' then ['i', '̇'] else [pyLower c]

/-- Python's `str.isalnum` extended beyond ASCII on the characters this
development uses: U+0130 is a letter, so alphanumeric; COMBINING DOT ABOVE
(U+0307) is a combining mark, which Python's `isalnum` rejects. -/
def pyIsAlnumU (c : Char) : Bool :=
  pyIsAlnum c || decide (c.toNat = 0x130)

/-- The keep-filter of `clean_title` over the extended character model. -/
def keepAlnumSpaceU (l : Str) : Str :=
  l.filter (fun c => pyIsAlnumU c || pyIsSpace c)

/-- `clean_title` over the extended character model: the same pipeline,
with the string-valued lowercasing applied characterwise at the end. -/
def clean_titleU (title : Str) : Str :=
  (keepAlnumSpaceU
    (replaceSingleHyphen (replaceDoubleHyphen (removeRightBrace (removeLeftBrace title))))).flatMap
    pyLowerU

/-- C8 counterexample: the Title Normalizer is not idempotent on the
program.  The title consisting of LATIN CAPITAL LETTER I WITH DOT ABOVE
(U+0130) is alphanumeric, so it survives the filter and lowercases to "i"
followed by COMBINING DOT ABOVE (U+0307); normalizing again strips the
combining mark (neither alphanumeric nor a space), leaving the single
character "i". -/
theorem C8_counterexample :
    clean_titleU ['İ'] = ['i', '̇'] ∧
      clean_titleU (clean_titleU ['İ']) = ['i'] ∧
      clean_titleU (clean_titleU ['İ']) ≠ clean_titleU ['İ'] := by
  refine ⟨by decide, by decide, by decide⟩

theorem mem_replaceDoubleHyphen {c : Char} :
    ∀ l : Str, c ∈ replaceDoubleHyphen l → c ∈ l ∨ c = ' ' := by
  intro l
  induction l using replaceDoubleHyphen.induct with
  | case1 =>
    intro h
    simp [replaceDoubleHyphen] at h
  | case2 d =>
    intro h
    rw [replaceDoubleHyphen] at h
    exact Or.inl h
  | case3 c1 c2 rest hc ih =>
    intro h
    rw [replaceDoubleHyphen, if_pos hc] at h
    rcases List.mem_cons.1 h with rfl | h2
    · exact Or.inr rfl
    · rcases ih h2 with h3 | h3
      · exact Or.inl (List.mem_cons_of_mem _ (List.mem_cons_of_mem _ h3))
      · exact Or.inr h3
  | case4 c1 c2 rest hc ih =>
    intro h
    rw [replaceDoubleHyphen, if_neg hc] at h
    rcases List.mem_cons.1 h with rfl | h2
    · exact Or.inl (List.mem_cons_self _ _)
    · rcases ih h2 with h3 | h3
      · exact Or.inl (List.mem_cons_of_mem _ h3)
      · exact Or.inr h3

theorem mem_replaceSingleHyphen {c : Char} {l : Str}
    (h : c ∈ replaceSingleHyphen l) : c ∈ l ∨ c = ' ' := by
  unfold replaceSingleHyphen at h
  rcases List.mem_map.1 h with ⟨d, hd, hdc⟩
  by_cases hdh : d = '-'
  · rw [if_pos hdh] at hdc
    exact Or.inr hdc.symm
  · rw [if_neg hdh] at hdc
    exact Or.inl (hdc ▸ hd)

/-- The replace stages of `clean_title` keep an ASCII string ASCII. -/
theorem ascii_stages {s : Str} (h : ∀ c ∈ s, c.toNat < 128) :
    ∀ c ∈ replaceSingleHyphen (replaceDoubleHyphen (removeRightBrace (removeLeftBrace s))),
      c.toNat < 128 := by
  intro c hc
  rcases mem_replaceSingleHyphen hc with hc2 | rfl
  · rcases mem_replaceDoubleHyphen _ hc2 with hc3 | rfl
    · unfold removeRightBrace removeLeftBrace at hc3
      exact h c (List.mem_filter.1 (List.mem_filter.1 hc3).1).1
    · decide
  · decide

theorem keepAlnumSpaceU_eq_ascii {l : Str} (h : ∀ c ∈ l, c.toNat < 128) :
    keepAlnumSpaceU l = keepAlnumSpace l := by
  unfold keepAlnumSpaceU keepAlnumSpace
  apply List.filter_congr
  intro c hc
  have h130 : decide (c.toNat = 0x130) = false := by
    rw [decide_eq_false_iff_not]
    have := h c hc
    omega
  rw [pyIsAlnumU, h130, Bool.or_false]

theorem flatMap_pyLowerU_eq_ascii {l : Str} (h : ∀ c ∈ l, c.toNat < 128) :
    l.flatMap pyLowerU = l.map pyLower := by
  induction l with
  | nil => rfl
  | cons c rest ih =>
    rw [List.flatMap_cons, List.map_cons]
    have hc : pyLowerU c = [pyLower c] := by
      rw [pyLowerU, if_neg]
      intro hceq
      have hlt := h c (List.mem_cons_self c rest)
      rw [hceq] at hlt
      exact absurd hlt (by decide)
    rw [hc, ih (fun d hd => h d (List.mem_cons_of_mem c hd))]
    rfl

/-- On ASCII input the extended model and the ASCII model of the Title
Normalizer agree. -/
theorem clean_titleU_eq_clean_title {s : Str} (h : ∀ c ∈ s, c.toNat < 128) :
    clean_titleU s = clean_title s := by
  unfold clean_titleU clean_title
  have hu := ascii_stages h
  rw [keepAlnumSpaceU_eq_ascii hu]
  apply flatMap_pyLowerU_eq_ascii
  intro c hc
  unfold keepAlnumSpace at hc
  exact hu c (List.mem_filter.1 hc).1

/-- Everything the ASCII normalizer outputs is ASCII. -/
theorem clean_title_output_ascii (s : Str) : ∀ c ∈ clean_title s, c.toNat < 128 := by
  intro c hc
  have hkeep := (mem_clean_title hc).1
  simp only [pyIsAlnum, pyIsSpace, Bool.or_eq_true, decide_eq_true_eq] at hkeep
  omega

/-- C8 (amended): on every ASCII title the Title Normalizer is idempotent —
normalizing an already-normalized ASCII string yields it unchanged; on
Unicode titles idempotence fails (see the U+0130 counterexample). -/
theorem C8_clean_title_idempotent_ascii (s : Str) (h : ∀ c ∈ s, c.toNat < 128) :
    clean_titleU (clean_titleU s) = clean_titleU s := by
  rw [clean_titleU_eq_clean_title h,
    clean_titleU_eq_clean_title (clean_title_output_ascii s)]
  exact clean_title_model_idempotent s

/-- Witness for C8: a concrete ASCII title, normalized twice. -/
theorem C8_clean_title_idempotent_ascii_witness :
    (∀ c ∈ "An ASCII--Title".toList, c.toNat < 128) ∧
      clean_titleU (clean_titleU "An ASCII--Title".toList) =
        clean_titleU "An ASCII--Title".toList :=
  ⟨by decide, C8_clean_title_idempotent_ascii "An ASCII--Title".toList (by decide)⟩
